import Mathlib

/-!
Verification of the chat synchronization engine implemented in
`next-frontend/hooks/useMessaging.ts`.

The embedding below mirrors the hook's data shapes and state transitions.
Ledger timestamps are decimal strings in the source; since the source both
compares them for (in)equality and parses them as integers, and the ledger
emits canonical decimal encodings, they are modelled as `Int`.  Message
bodies and hashes are byte arrays, modelled as `List Nat`.  React state is
modelled as an explicit `MessagingState` record; each asynchronous gateway
interaction is modelled by passing its outcome (`Except` for a thrown
exception versus a successful response) into the state-transition function.
-/

namespace Rowl

/-- Mirrors the `Message` interface of `useMessaging.ts`: sender address,
encrypted body bytes, content-hash bytes, ledger timestamp, read flag. -/
structure Message where
  sender : String
  encrypted_message : List Nat
  content_hash : List Nat
  sent_timestamp : Int
  is_read : Bool
deriving DecidableEq

/-- Mirrors the `lastMessage` object nested in `ChatWithMetadata`. -/
structure LastMessageInfo where
  text : List Nat
  sender : String
  timestamp : Int
deriving DecidableEq

/-- Mirrors the `ChatWithMetadata` interface: the chat-summary shape held in
the `chats` state array. -/
structure ChatWithMetadata where
  id : String
  participant_1 : String
  participant_2 : String
  lastMessage : Option LastMessageInfo
  unreadCount : Nat
  created_at : Int
deriving DecidableEq

/-- Mirrors the on-ledger `Chat` object (fields of the fetched move object,
with messages already flattened out of their nested `fields` wrapper). -/
structure Chat where
  participant_1 : String
  participant_2 : String
  messages : List Message
  created_at : Int
deriving DecidableEq

/-- The `lastMessage?.timestamp` optional-chaining access used by the
anti-flicker comparison in `fetchChats`. -/
def tsOf (c : ChatWithMetadata) : Option Int :=
  c.lastMessage.map (·.timestamp)

/-- The `hasChanged` test of the `fetchChats` merge: true iff the last-message
timestamp (through optional chaining) or the unread count differs. -/
def summaryChanged (old fresh : ChatWithMetadata) : Bool :=
  decide (tsOf old ≠ tsOf fresh) || decide (old.unreadCount ≠ fresh.unreadCount)

/-- `existingChatsMap.get(id)`: the JS `Map` is built by inserting the held
chats in order, so a duplicated id resolves to its last occurrence. -/
def mapLookup (prev : List ChatWithMetadata) (cid : String) : Option ChatWithMetadata :=
  prev.reverse.find? (fun c => c.id == cid)

/-- One step of the `mergedChats` map in `fetchChats`: a freshly fetched
summary is replaced by the held one unless `summaryChanged`. -/
def mergeEntry (prev : List ChatWithMetadata) (n : ChatWithMetadata) : ChatWithMetadata :=
  match mapLookup prev n.id with
  | some existing => if summaryChanged existing n then n else existing
  | none => n

/-- The `setChats` updater of `fetchChats`: on an empty held list the fresh
batch is taken verbatim; otherwise each fresh summary is merged through
`mergeEntry` and held summaries whose id is absent from the fresh batch are
appended unchanged. -/
def mergeChats (prev fresh : List ChatWithMetadata) : List ChatWithMetadata :=
  if prev.isEmpty then fresh
  else
    let merged := fresh.map (mergeEntry prev)
    let freshIds := fresh.map (·.id)
    merged ++ prev.filter (fun c => ! freshIds.contains c.id)

/-- Derivation of a `ChatWithMetadata` from a fetched chat record, as in the
`chatsWithMetadata` map of `fetchChats`: last message preview, unread count
of messages not sent by the current user and not read, creation time. -/
def mkChatMetadata (currentUser cid : String) (chat : Chat) : ChatWithMetadata :=
  { id := cid
    participant_1 := chat.participant_1
    participant_2 := chat.participant_2
    lastMessage := chat.messages.getLast?.map (fun m =>
      { text := m.encrypted_message, sender := m.sender, timestamp := m.sent_timestamp })
    unreadCount :=
      (chat.messages.filter (fun m => decide (m.sender ≠ currentUser) && ! m.is_read)).length
    created_at := chat.created_at }

/-- Processing of one `ChatCreated` event inside `fetchChats`: fetch the chat
object from the ledger; a failed fetch or a non-move-object response yields
`null`, a record whose participant pair excludes the current user is
filtered out, and a retained record is turned into its summary. -/
def processEvent (currentUser : String) (ledger : String → Option Chat)
    (cid : String) : Option ChatWithMetadata :=
  match ledger cid with
  | some chat =>
      if chat.participant_1 = currentUser ∨ chat.participant_2 = currentUser then
        some (mkChatMetadata currentUser cid chat)
      else none
  | none => none

/-- `chatsWithMetadata`: the summaries derived from the event batch after
dropping the `null` entries. -/
def fetchedSummaries (currentUser : String) (events : List String)
    (ledger : String → Option Chat) : List ChatWithMetadata :=
  events.filterMap (processEvent currentUser ledger)

/-- The body of a successful `fetchChats` cycle: an empty event response
takes the `setChats([])` early return; otherwise the derived summaries are
merged into the held collection. -/
def fetchChatsCore (currentUser : String) (events : List String)
    (ledger : String → Option Chat) (prev : List ChatWithMetadata) :
    List ChatWithMetadata :=
  if events.isEmpty then []
  else mergeChats prev (fetchedSummaries currentUser events ledger)

/-- The `queryEvents` call of `fetchChats` passes `limit: 50`, so at most the
first 50 `ChatCreated` events are returned to the hook. -/
def queryChatCreated (allEvents : List String) : List String :=
  allEvents.take 50

/-- The hook state touched by the claims: the chat-summary array, the
current-chat message array, and the user-visible error string. -/
structure MessagingState where
  chats : List ChatWithMetadata
  messages : List Message
  chatError : Option String
deriving DecidableEq

/-- A full `fetchChats` cycle on the hook state.  A successful cycle runs
`fetchChatsCore` with `chatError` cleared; a cycle in which an exception is
raised reaches the `catch` block, which only records the error message and
never calls `setChats`. -/
def fetchChatsOp (currentUser : String)
    (outcome : Except String (List String × (String → Option Chat)))
    (st : MessagingState) : MessagingState :=
  match outcome with
  | .ok (events, ledger) =>
      { st with chats := fetchChatsCore currentUser events ledger st.chats
                chatError := none }
  | .error e => { st with chatError := some e }

/-- `messages[messages.length - 1]?.sent_timestamp`, the last-element probe
of the current-chat polling effect. -/
def lastTs (l : List Message) : Option Int :=
  l.getLast?.map (·.sent_timestamp)

/-- The `hasChanges` test inside the polling `setMessages` updater:
`transformedMessages.some((msg, idx) => !prevMsg || prevMsg.sent_timestamp
!== msg.sent_timestamp)`. -/
def hasChangesB (prevMessages fetched : List Message) : Bool :=
  fetched.enum.any (fun p =>
    match prevMessages[p.1]? with
    | none => true
    | some prevMsg => decide (prevMsg.sent_timestamp ≠ p.2.sent_timestamp))

/-- The current-chat polling merge: the outer gate (`hasNewMessages ||
lastMessageChanged`) guards the `setMessages` call, whose updater replaces
on a length difference, replaces when some positional timestamp differs, and
otherwise keeps the held array. -/
def pollMerge (held fetched : List Message) : List Message :=
  if fetched.length ≠ held.length ∨
      (held ≠ [] ∧ fetched ≠ [] ∧ lastTs held ≠ lastTs fetched) then
    if held.length ≠ fetched.length then fetched
    else if hasChangesB held fetched then fetched
    else held
  else held

/-- Models `TextEncoder.encode` on the code points of the string. -/
def encodeText (s : String) : List Nat :=
  s.toList.map (·.toNat)

/-- The bytes of the provisional content hash `hash_${Date.now()}`. -/
def contentHashOf (now : Int) : List Nat :=
  encodeText ("hash_" ++ toString now)

/-- The `optimisticMessage` constructed by `sendMessage`: sent by the current
account, body encoded from the typed text, provisional timestamp
`Date.now()`, unread. -/
def mkOptimistic (sender : String) (message : String) (now : Int) : Message :=
  { sender := sender
    encrypted_message := encodeText message
    content_hash := contentHashOf now
    sent_timestamp := now
    is_read := false }

/-- The synchronous part of `sendMessage` before any gateway interaction:
clear the error and append the optimistic message to the held sequence. -/
def sendMessageStart (currentAddress : String) (message : String) (now : Int)
    (st : MessagingState) : MessagingState :=
  { st with messages := st.messages ++ [mkOptimistic currentAddress message now]
            chatError := none }

/-- A full `sendMessage` call with a connected account: optimistic append,
then either a successful submission (the follow-up `fetchMessages` replaces
the held sequence with the fetched one) or a failure (the `catch` block
records the error and filters out every message whose timestamp equals the
provisional one). -/
def sendMessageOp (currentAddress : String) (message : String) (now : Int)
    (outcome : Except String (List Message)) (st : MessagingState) :
    MessagingState :=
  let st1 := sendMessageStart currentAddress message now st
  match outcome with
  | .ok fetchedMessages => { st1 with messages := fetchedMessages, chatError := none }
  | .error e =>
      { st1 with
        messages := st1.messages.filter (fun m => decide (m.sent_timestamp ≠ now))
        chatError := some e }

/-- A full `markAsRead` call with a connected account: on success the
follow-up `fetchMessages` replaces the held sequence and clears the error;
the `catch` block only logs to the console and returns `null`, leaving the
whole state untouched. -/
def markAsReadOp (outcome : Except String (List Message))
    (st : MessagingState) : MessagingState :=
  match outcome with
  | .ok fetchedMessages => { st with messages := fetchedMessages, chatError := none }
  | .error _ => st

/-- A message with the given sender and timestamp, used in concrete runs. -/
def mkMsg (sender : String) (ts : Int) : Message :=
  { sender := sender, encrypted_message := [], content_hash := []
    sent_timestamp := ts, is_read := false }

/-- A concrete ledger chat between alice and bob with one unread message. -/
def chatAB : Chat :=
  { participant_1 := "alice", participant_2 := "bob"
    messages := [mkMsg "bob" 10], created_at := 1 }

/-- The summary alice derives from `chatAB` under the id `cA`. -/
def metaA : ChatWithMetadata := mkChatMetadata "alice" "cA" chatAB

/-- A hook state holding only the summary of `chatAB`. -/
def stA : MessagingState :=
  { chats := [metaA], messages := [], chatError := none }

/-- Claim C5: a `sendMessage` call with a connected account appends, before
any network round trip, exactly one optimistic message to the end of the
held sequence, sent by the current user with provisional `sentAt` equal to
the current wall-clock time. -/
theorem sendMessage_optimistic_append (currentAddress message : String)
    (now : Int) (st : MessagingState) :
    (sendMessageStart currentAddress message now st).messages.length
        = st.messages.length + 1 ∧
    (sendMessageStart currentAddress message now st).messages.getLast?
        = some (mkOptimistic currentAddress message now) ∧
    (mkOptimistic currentAddress message now).sender = currentAddress ∧
    (mkOptimistic currentAddress message now).sent_timestamp = now := by
  refine ⟨?_, ?_, rfl, rfl⟩
  · simp [sendMessageStart]
  · simp [sendMessageStart]

/-- Claim C6: a `fetchChats` cycle in which an exception is raised leaves the
held chat-summary collection exactly as it was and surfaces the error
message to the caller. -/
theorem fetchChats_failure_preserves_chats (currentUser e : String)
    (st : MessagingState) :
    (fetchChatsOp currentUser (.error e) st).chats = st.chats ∧
    (fetchChatsOp currentUser (.error e) st).chatError = some e := by
  exact ⟨rfl, rfl⟩

/-- If the lengths agree, the sequences are nonempty, and the last
timestamps differ, the positional scan of the polling updater reports a
change (the last index witnesses it). -/
lemma hasChangesB_of_lastTs_ne (held fetched : List Message)
    (hlen : held.length = fetched.length) (hne : held ≠ [])
    (hts : lastTs held ≠ lastTs fetched) : hasChangesB held fetched = true := by
  have hf : fetched ≠ [] := by
    intro h
    rw [h] at hlen
    exact hne (List.length_eq_zero.mp hlen)
  have hkf : fetched.length - 1 < fetched.length := by
    have := List.length_pos.mpr hf
    omega
  have hkh : fetched.length - 1 < held.length := by omega
  have hmem : (fetched.length - 1, fetched[fetched.length - 1]) ∈ fetched.enum := by
    rw [List.mem_enum_iff_getElem?]
    exact List.getElem?_eq_getElem _
  have hh : held[fetched.length - 1]? = some (held[fetched.length - 1]) :=
    List.getElem?_eq_getElem hkh
  have h1 : lastTs held = some (held[fetched.length - 1]).sent_timestamp := by
    rw [lastTs, List.getLast?_eq_getElem? held, hlen,
      List.getElem?_eq_getElem hkh]
    rfl
  have h2 : lastTs fetched = some (fetched[fetched.length - 1]).sent_timestamp := by
    rw [lastTs, List.getLast?_eq_getElem? fetched,
      List.getElem?_eq_getElem hkf]
    rfl
  apply List.any_eq_true.mpr
  refine ⟨(fetched.length - 1, fetched[fetched.length - 1]), hmem, ?_⟩
  show (match held[fetched.length - 1]? with
    | none => true
    | some prevMsg =>
        decide (prevMsg.sent_timestamp ≠ (fetched[fetched.length - 1]).sent_timestamp)) = true
  rw [hh]
  apply decide_eq_true
  intro heq
  apply hts
  rw [h1, h2, heq]

/-- Claim C2 counterexample: two held messages with timestamps 1 and 5, a
fetched batch of equal length whose first timestamp differs (2) but whose
last agrees — the polling merge keeps the held sequence instead of
replacing it wholesale. -/
theorem pollMerge_equalLength_midChange_kept :
    (mkMsg "a" 1 :: [mkMsg "a" 5]).length = (mkMsg "a" 2 :: [mkMsg "a" 5]).length ∧
    (mkMsg "a" 1).sent_timestamp ≠ (mkMsg "a" 2).sent_timestamp ∧
    pollMerge (mkMsg "a" 1 :: [mkMsg "a" 5]) (mkMsg "a" 2 :: [mkMsg "a" 5])
      = mkMsg "a" 1 :: [mkMsg "a" 5] ∧
    mkMsg "a" 1 :: [mkMsg "a" 5] ≠ mkMsg "a" 2 :: [mkMsg "a" 5] := by
  decide

/-- Claim C2 (amended): a length difference replaces the held sequence
wholesale; with equal lengths the fetch is applied only when the last
element timestamp differs (replacing wholesale), and otherwise discarded
even if an earlier positional timestamp differs. -/
theorem pollMerge_replace_rule (held fetched : List Message) :
    (held.length ≠ fetched.length → pollMerge held fetched = fetched) ∧
    (held.length = fetched.length →
      pollMerge held fetched =
        if held ≠ [] ∧ lastTs held ≠ lastTs fetched then fetched else held) := by
  constructor
  · intro h
    unfold pollMerge
    rw [if_pos (Or.inl (Ne.symm h)), if_pos h]
  · intro h
    by_cases hc : held ≠ [] ∧ lastTs held ≠ lastTs fetched
    · have hf : fetched ≠ [] := by
        intro hfe
        rw [hfe] at h
        exact hc.1 (List.length_eq_zero.mp h)
      rw [if_pos hc]
      unfold pollMerge
      rw [if_pos (Or.inr ⟨hc.1, hf, hc.2⟩), if_neg (by omega),
        if_pos (hasChangesB_of_lastTs_ne held fetched h hc.1 hc.2)]
    · rw [if_neg hc]
      unfold pollMerge
      rw [if_neg]
      intro hd
      rcases hd with hd | ⟨hne, _, hts⟩
      · exact hd h.symm
      · exact hc ⟨hne, hts⟩

/-- Claim C2 witness: the two branches of the amended rule at concrete
inputs — a longer fetch replaces, an equal-length fetch with a changed last
timestamp replaces. -/
theorem pollMerge_replace_rule_witness :
    pollMerge [mkMsg "a" 1] [mkMsg "a" 1, mkMsg "a" 2] = [mkMsg "a" 1, mkMsg "a" 2] ∧
    pollMerge [mkMsg "a" 1] [mkMsg "a" 3] = [mkMsg "a" 3] := by
  constructor
  · exact (pollMerge_replace_rule [mkMsg "a" 1] [mkMsg "a" 1, mkMsg "a" 2]).1 (by decide)
  · have h := (pollMerge_replace_rule [mkMsg "a" 1] [mkMsg "a" 3]).2 (by decide)
    rw [h]
    decide

/-- The polling merge returns either the fetched or the held sequence. -/
lemma pollMerge_cases (held fetched : List Message) :
    pollMerge held fetched = fetched ∨ pollMerge held fetched = held := by
  unfold pollMerge
  split_ifs <;> simp

/-- Polling a sequence against an identical fetched copy is a no-op. -/
lemma pollMerge_self (l : List Message) : pollMerge l l = l := by
  unfold pollMerge
  rw [if_neg]
  intro h
  rcases h with h | ⟨_, _, h⟩
  · exact h rfl
  · exact h rfl

/-- Applying the polling merge twice with the same fetched data equals
applying it once. -/
lemma pollMerge_idem (held fetched : List Message) :
    pollMerge (pollMerge held fetched) fetched = pollMerge held fetched := by
  rcases pollMerge_cases held fetched with h | h
  · rw [h]
    exact pollMerge_self fetched
  · rw [h]
    exact h

/-- Under distinct ids, `find?` by the id of a member returns that member. -/
lemma find?_id_eq_some_of_nodup (l : List ChatWithMetadata) (c : ChatWithMetadata)
    (h : (l.map (·.id)).Nodup) (hc : c ∈ l) :
    l.find? (fun x => x.id == c.id) = some c := by
  induction l with
  | nil => cases hc
  | cons a t ih =>
    rw [List.map_cons, List.nodup_cons] at h
    by_cases hb : a.id = c.id
    · have hfind : (a :: t).find? (fun x => x.id == c.id) = some a :=
        List.find?_cons_of_pos _ (by simp [hb])
      rcases List.mem_cons.mp hc with rfl | hct
      · exact hfind
      · exfalso
        apply h.1
        rw [hb]
        exact List.mem_map_of_mem _ hct
    · rw [List.find?_cons_of_neg _ (by simp [hb])]
      apply ih h.2
      rcases List.mem_cons.mp hc with rfl | hct
      · exact absurd rfl hb
      · exact hct

/-- Under distinct ids, the held-chat map lookup of a member id returns that
member. -/
lemma mapLookup_self (l : List ChatWithMetadata) (c : ChatWithMetadata)
    (h : (l.map (·.id)).Nodup) (hc : c ∈ l) : mapLookup l c.id = some c := by
  unfold mapLookup
  apply find?_id_eq_some_of_nodup
  · rw [List.map_reverse]
    exact List.nodup_reverse.mpr h
  · exact List.mem_reverse.mpr hc

/-- Looking up an id that no element of the right part carries only sees the
left part. -/
lemma mapLookup_append_of_notin (A B : List ChatWithMetadata) (cid : String)
    (hB : ∀ b ∈ B, b.id ≠ cid) : mapLookup (A ++ B) cid = mapLookup A cid := by
  unfold mapLookup
  rw [List.reverse_append, List.find?_append]
  have hnone : B.reverse.find? (fun c => c.id == cid) = none := by
    apply List.find?_eq_none.mpr
    intro x hx
    simp only [beq_iff_eq]
    exact hB x (List.mem_reverse.mp hx)
  rw [hnone]
  rfl

/-- The anti-flicker merge step keeps the id of the fresh summary. -/
lemma mergeEntry_id (prev : List ChatWithMetadata) (n : ChatWithMetadata) :
    (mergeEntry prev n).id = n.id := by
  unfold mergeEntry
  cases h : mapLookup prev n.id with
  | none => rfl
  | some e =>
    have he : e.id = n.id := by
      unfold mapLookup at h
      have hb := List.find?_some h
      exact eq_of_beq hb
    show (if summaryChanged e n = true then n else e).id = n.id
    split_ifs
    · rfl
    · exact he

/-- The anti-flicker merge step yields the fresh summary or a held one. -/
lemma mergeEntry_mem (prev : List ChatWithMetadata) (n : ChatWithMetadata) :
    mergeEntry prev n = n ∨ mergeEntry prev n ∈ prev := by
  unfold mergeEntry
  cases h : mapLookup prev n.id with
  | none => exact Or.inl rfl
  | some e =>
    have he : e ∈ prev := by
      unfold mapLookup at h
      exact List.mem_reverse.mp (List.mem_of_find?_eq_some h)
    show (if summaryChanged e n = true then n else e) = n ∨
      (if summaryChanged e n = true then n else e) ∈ prev
    split_ifs
    · exact Or.inl rfl
    · exact Or.inr he

/-- A summary never differs from itself under the anti-flicker comparison. -/
lemma summaryChanged_self (n : ChatWithMetadata) : summaryChanged n n = false := by
  simp [summaryChanged]

/-- The result of the anti-flicker merge step agrees with the fresh summary
on the compared fields. -/
lemma mergeEntry_unchanged (prev : List ChatWithMetadata) (n : ChatWithMetadata) :
    summaryChanged (mergeEntry prev n) n = false := by
  unfold mergeEntry
  cases h : mapLookup prev n.id with
  | none => exact summaryChanged_self n
  | some e =>
    show summaryChanged (if summaryChanged e n = true then n else e) n = false
    split_ifs with hc
    · exact summaryChanged_self n
    · exact Bool.eq_false_iff.mpr hc

/-- Every element of the merged chat list is a held or a fresh summary. -/
lemma mem_mergeChats (prev fresh : List ChatWithMetadata) (s : ChatWithMetadata)
    (hs : s ∈ mergeChats prev fresh) : s ∈ prev ∨ s ∈ fresh := by
  unfold mergeChats at hs
  by_cases hp : prev.isEmpty = true
  · rw [if_pos hp] at hs
    exact Or.inr hs
  · rw [if_neg hp] at hs
    rcases List.mem_append.mp hs with hm | hk
    · rcases List.mem_map.mp hm with ⟨n, hn, rfl⟩
      rcases mergeEntry_mem prev n with he | he
      · rw [he]
        exact Or.inr hn
      · exact Or.inl he
    · exact Or.inl (List.mem_filter.mp hk).1

/-- The merged prefix of the chat merge carries exactly the fresh ids. -/
lemma merged_ids (prev fresh : List ChatWithMetadata) :
    (fresh.map (mergeEntry prev)).map (·.id) = fresh.map (·.id) := by
  rw [List.map_map]
  apply List.map_congr_left
  intro n _
  exact mergeEntry_id prev n

/-- Elements kept from the held list carry ids outside the fresh batch. -/
lemma kept_id_notin (prev fresh : List ChatWithMetadata) (b : ChatWithMetadata)
    (hb : b ∈ prev.filter (fun c => ! (fresh.map (·.id)).contains c.id)) :
    b.id ∉ fresh.map (·.id) := by
  have h := (List.mem_filter.mp hb).2
  intro hmem
  rw [Bool.not_eq_true'] at h
  have hcon : ((fresh.map (·.id)).contains b.id) = true := by
    simpa [List.contains] using hmem
  rw [h] at hcon
  cases hcon

/-- With non-empty held state the chat merge is the merged prefix followed
by the kept suffix. -/
lemma mergeChats_of_ne (prev fresh : List ChatWithMetadata)
    (hp : ¬ prev.isEmpty = true) :
    mergeChats prev fresh =
      fresh.map (mergeEntry prev)
        ++ prev.filter (fun c => ! (fresh.map (·.id)).contains c.id) := by
  unfold mergeChats
  rw [if_neg hp]

/-- The output of a chat merge with non-empty held state is non-empty. -/
lemma mergeChats_ne_nil (prev fresh : List ChatWithMetadata)
    (hp : prev ≠ []) : mergeChats prev fresh ≠ [] := by
  rw [mergeChats_of_ne prev fresh (by simpa [List.isEmpty_iff] using hp)]
  intro h0
  rcases List.append_eq_nil.mp h0 with ⟨hm, hk⟩
  have hfe : fresh = [] := by
    cases fresh with
    | nil => rfl
    | cons a t => simp at hm
  subst hfe
  apply hp
  simpa using hk

/-- In the merged state, looking up the id of a fresh summary finds the
entry produced for it by the first merge. -/
lemma mapLookup_mergeChats (prev fresh : List ChatWithMetadata)
    (hnd : (fresh.map (·.id)).Nodup) (hp : ¬ prev.isEmpty = true)
    (n : ChatWithMetadata) (hn : n ∈ fresh) :
    mapLookup (mergeChats prev fresh) n.id = some (mergeEntry prev n) := by
  rw [mergeChats_of_ne prev fresh hp]
  rw [mapLookup_append_of_notin]
  · have hmm2 : mergeEntry prev n ∈ fresh.map (mergeEntry prev) :=
      List.mem_map_of_mem _ hn
    have hnd2 : ((fresh.map (mergeEntry prev)).map (·.id)).Nodup := by
      rw [merged_ids]
      exact hnd
    have hself := mapLookup_self _ _ hnd2 hmm2
    rw [mergeEntry_id] at hself
    exact hself
  · intro b hb heq
    exact kept_id_notin prev fresh b hb (heq ▸ List.mem_map_of_mem _ hn)

/-- Merging a fresh summary into the already-merged state reproduces the
entry the first merge produced for it. -/
lemma mergeEntry_mergeChats (prev fresh : List ChatWithMetadata)
    (hnd : (fresh.map (·.id)).Nodup) (hp : ¬ prev.isEmpty = true)
    (n : ChatWithMetadata) (hn : n ∈ fresh) :
    mergeEntry (mergeChats prev fresh) n = mergeEntry prev n := by
  have hlook := mapLookup_mergeChats prev fresh hnd hp n hn
  rw [show mergeEntry (mergeChats prev fresh) n
      = if summaryChanged (mergeEntry prev n) n = true then n else mergeEntry prev n from by
    conv_lhs => rw [mergeEntry.eq_def, hlook]]
  rw [if_neg (by simp [mergeEntry_unchanged])]

/-- Filtering the merged state by absence from the fresh ids reproduces the
kept suffix. -/
lemma filter_mergeChats (prev fresh : List ChatWithMetadata)
    (hp : ¬ prev.isEmpty = true) :
    (mergeChats prev fresh).filter (fun c => ! (fresh.map (·.id)).contains c.id)
      = prev.filter (fun c => ! (fresh.map (·.id)).contains c.id) := by
  rw [mergeChats_of_ne prev fresh hp, List.filter_append]
  have h1 : (fresh.map (mergeEntry prev)).filter
      (fun c => ! (fresh.map (·.id)).contains c.id) = [] := by
    apply List.filter_eq_nil_iff.mpr
    intro a ha
    have hid : a.id ∈ fresh.map (·.id) := by
      rw [← merged_ids prev fresh]
      exact List.mem_map_of_mem _ ha
    simp [List.contains, hid]
  have h2 : (prev.filter (fun c => ! (fresh.map (·.id)).contains c.id)).filter
      (fun c => ! (fresh.map (·.id)).contains c.id)
      = prev.filter (fun c => ! (fresh.map (·.id)).contains c.id) := by
    apply List.filter_eq_self.mpr
    intro a ha
    exact (List.mem_filter.mp ha).2
  rw [h1, h2, List.nil_append]

/-- Re-running the chat-list merge with the same fresh batch (of pairwise
distinct ids) reproduces the merged state exactly. -/
lemma mergeChats_idem (prev fresh : List ChatWithMetadata)
    (hnd : (fresh.map (·.id)).Nodup) :
    mergeChats (mergeChats prev fresh) fresh = mergeChats prev fresh := by
  by_cases hp : prev.isEmpty = true
  · have hpe : prev = [] := List.isEmpty_iff.mp hp
    subst hpe
    rw [show mergeChats [] fresh = fresh from by simp [mergeChats]]
    by_cases hf : fresh.isEmpty = true
    · have hfe : fresh = [] := List.isEmpty_iff.mp hf
      subst hfe
      simp [mergeChats]
    · rw [mergeChats_of_ne fresh fresh hf]
      have h1 : fresh.map (mergeEntry fresh) = fresh := by
        have hstep : ∀ n ∈ fresh, mergeEntry fresh n = id n := by
          intro n hn
          rw [show mergeEntry fresh n
              = if summaryChanged n n = true then n else n from by
            unfold mergeEntry
            rw [mapLookup_self fresh n hnd hn]]
          rw [ite_self]
          rfl
        rw [List.map_congr_left hstep, List.map_id]
      have h2 : fresh.filter (fun c => ! (fresh.map (·.id)).contains c.id) = [] := by
        apply List.filter_eq_nil_iff.mpr
        intro a ha
        have hid : a.id ∈ fresh.map (·.id) := List.mem_map_of_mem _ ha
        simp [List.contains, hid]
      rw [h1, h2, List.append_nil]
  · have hp1 : mergeChats prev fresh ≠ [] :=
      mergeChats_ne_nil prev fresh (by
        intro h
        exact hp (by simp [h]))
    rw [mergeChats_of_ne (mergeChats prev fresh) fresh
      (by simpa [List.isEmpty_iff] using hp1)]
    rw [List.map_congr_left (fun n hn => mergeEntry_mergeChats prev fresh hnd hp n hn)]
    rw [filter_mergeChats prev fresh hp]
    rw [← mergeChats_of_ne prev fresh hp]

/-- A summary derived from the event batch carries the id of its event. -/
lemma mem_fetchedSummaries_id (currentUser : String) (events : List String)
    (ledger : String → Option Chat) (n : ChatWithMetadata)
    (hn : n ∈ fetchedSummaries currentUser events ledger) : n.id ∈ events := by
  rcases List.mem_filterMap.mp hn with ⟨cid, hcid, hp⟩
  unfold processEvent at hp
  cases hl : ledger cid with
  | none =>
    rw [hl] at hp
    cases hp
  | some chat =>
    rw [hl] at hp
    have hp2 : (if chat.participant_1 = currentUser ∨ chat.participant_2 = currentUser
        then some (mkChatMetadata currentUser cid chat) else none) = some n := hp
    by_cases hpart : chat.participant_1 = currentUser ∨ chat.participant_2 = currentUser
    · rw [if_pos hpart] at hp2
      have hmk := Option.some.inj hp2
      rw [← hmk]
      exact hcid
    · rw [if_neg hpart] at hp2
      cases hp2

/-- Claim C1: for an id present both in the fresh batch and in the held
collection, the merged collection keeps the held summary object exactly
when the last-message timestamp and the unread count both agree, and takes
the freshly fetched summary when either differs. -/
theorem fetchChats_antiflicker (prev fresh : List ChatWithMetadata) (i : Nat)
    (hi : i < fresh.length) (e : ChatWithMetadata)
    (hl : mapLookup prev (fresh[i]).id = some e) :
    (mergeChats prev fresh)[i]? =
      some (if tsOf e = tsOf fresh[i] ∧ e.unreadCount = (fresh[i]).unreadCount
            then e else fresh[i]) := by
  have hp : prev ≠ [] := by
    intro h
    rw [h] at hl
    simp [mapLookup] at hl
  rw [mergeChats_of_ne prev fresh (by simpa [List.isEmpty_iff] using hp)]
  rw [List.getElem?_append_left (by simpa using hi)]
  rw [List.getElem?_map, List.getElem?_eq_getElem hi]
  show some (mergeEntry prev fresh[i]) = _
  congr 1
  rw [show mergeEntry prev (fresh[i])
      = if summaryChanged e (fresh[i]) = true then fresh[i] else e from by
    conv_lhs => rw [mergeEntry.eq_def, hl]]
  by_cases hc : tsOf e = tsOf fresh[i] ∧ e.unreadCount = (fresh[i]).unreadCount
  · rw [if_pos hc, if_neg]
    simp [summaryChanged, hc.1, hc.2]
  · rw [if_neg hc, if_pos]
    unfold summaryChanged
    rcases not_and_or.mp hc with h | h <;> simp [h]

/-- A fresh summary holding the same id as `metaA` but a newer message and a
higher unread count. -/
def metaA2 : ChatWithMetadata :=
  { id := "cA", participant_1 := "alice", participant_2 := "bob"
    lastMessage := some { text := [104], sender := "bob", timestamp := 20 }
    unreadCount := 2, created_at := 1 }

/-- Claim C1 witness: merging a batch whose summary for the held id changed
in both compared fields replaces the held object. -/
theorem fetchChats_antiflicker_witness :
    (mergeChats [metaA] [metaA2])[0]? = some metaA2 := by
  have h := fetchChats_antiflicker [metaA] [metaA2] 0 (by decide) metaA (by decide)
  rw [h]
  decide

/-- Claim C3 counterexample: a refresh whose discovery query returns zero
records clears the held collection, dropping the held summary. -/
theorem fetchChats_emptyEvents_clears :
    stA.chats ≠ [] ∧
    (fetchChatsOp "alice" (.ok ([], fun _ => none)) stA).chats = [] := by
  constructor
  · decide
  · rfl

/-- Claim C3 (amended): in a refresh cycle that completes without an
exception and whose discovery query returns at least one record, every held
summary whose id is not among the summaries fetched this cycle stays in the
merged collection; a cycle whose discovery query returns zero records
instead clears the collection. -/
theorem fetchChats_keeps_unreturned (currentUser : String)
    (events : List String) (ledger : String → Option Chat)
    (st : MessagingState) (c : ChatWithMetadata)
    (hev : events ≠ []) (hc : c ∈ st.chats)
    (hid : ∀ n ∈ fetchedSummaries currentUser events ledger, n.id ≠ c.id) :
    c ∈ (fetchChatsOp currentUser (.ok (events, ledger)) st).chats := by
  show c ∈ fetchChatsCore currentUser events ledger st.chats
  unfold fetchChatsCore
  rw [if_neg (by simpa [List.isEmpty_iff] using hev)]
  have hp : st.chats ≠ [] := by
    intro h
    rw [h] at hc
    cases hc
  rw [mergeChats_of_ne _ _ (by simpa [List.isEmpty_iff] using hp)]
  apply List.mem_append.mpr
  right
  apply List.mem_filter.mpr
  refine ⟨hc, ?_⟩
  have hnot : c.id ∉ (fetchedSummaries currentUser events ledger).map (·.id) := by
    intro hmem
    rcases List.mem_map.mp hmem with ⟨n, hn, hid2⟩
    exact hid n hn hid2
  simpa [List.contains] using hnot

/-- Claim C3 witness: a cycle returning one unrelated (unfetchable) event
keeps the held summary. -/
theorem fetchChats_keeps_unreturned_witness :
    metaA ∈ (fetchChatsOp "alice" (.ok (["cX"], fun _ => none)) stA).chats := by
  apply fetchChats_keeps_unreturned "alice" ["cX"] (fun _ => none) stA metaA
  · decide
  · decide
  · decide

/-- Claim C4 counterexample: when a held message already carries the
provisional timestamp, the rollback filter removes it together with the
optimistic entry, so the sequence does not return to its pre-call value. -/
theorem sendMessage_rollback_collision :
    ({ chats := [], messages := [mkMsg "bob" 100], chatError := none }
        : MessagingState).messages ≠ [] ∧
    (sendMessageOp "alice" "hi" 100 (.error "network")
      { chats := [], messages := [mkMsg "bob" 100], chatError := none }).messages
      = [] := by
  constructor
  · decide
  · decide

/-- Claim C4 (amended): when no held message carries the provisional
timestamp, a failed send rolls the sequence back exactly to its pre-call
value and surfaces the error. -/
theorem sendMessage_rollback_exact (currentAddress message : String) (now : Int)
    (e : String) (st : MessagingState)
    (hfresh : ∀ m ∈ st.messages, m.sent_timestamp ≠ now) :
    (sendMessageOp currentAddress message now (.error e) st).messages = st.messages ∧
    (sendMessageOp currentAddress message now (.error e) st).chatError = some e := by
  constructor
  · show ((st.messages ++ [mkOptimistic currentAddress message now]).filter
      (fun m => decide (m.sent_timestamp ≠ now))) = st.messages
    rw [List.filter_append]
    have h1 : st.messages.filter (fun m => decide (m.sent_timestamp ≠ now))
        = st.messages := by
      apply List.filter_eq_self.mpr
      intro a ha
      exact decide_eq_true (hfresh a ha)
    have h2 : ([mkOptimistic currentAddress message now] : List Message).filter
        (fun m => decide (m.sent_timestamp ≠ now)) = [] := by
      simp [mkOptimistic]
    rw [h1, h2, List.append_nil]
  · rfl

/-- Claim C4 witness: a failed send at a timestamp no held message carries
restores the held sequence. -/
theorem sendMessage_rollback_exact_witness :
    (sendMessageOp "alice" "hi" 200 (.error "network")
      { chats := [], messages := [mkMsg "bob" 100], chatError := none }).messages
      = [mkMsg "bob" 100] ∧
    (sendMessageOp "alice" "hi" 200 (.error "network")
      { chats := [], messages := [mkMsg "bob" 100], chatError := none }).chatError
      = some "network" :=
  sendMessage_rollback_exact "alice" "hi" 200 "network"
    { chats := [], messages := [mkMsg "bob" 100], chatError := none } (by decide)

/-- Claim C7: the unread count of a derived summary counts exactly the
messages not sent by the current user and not read, and the merge never
synthesizes a summary — every merged entry is a held or a fresh one, so the
count is computed by the same derivation on every merge path. -/
theorem unreadCount_correct :
    (∀ (currentUser cid : String) (chat : Chat),
      (mkChatMetadata currentUser cid chat).unreadCount
        = chat.messages.countP
            (fun m => decide (m.sender ≠ currentUser ∧ m.is_read = false))) ∧
    (∀ (prev fresh : List ChatWithMetadata) (s : ChatWithMetadata),
      s ∈ mergeChats prev fresh → s ∈ prev ∨ s ∈ fresh) := by
  constructor
  · intro currentUser cid chat
    show (chat.messages.filter
        (fun m => decide (m.sender ≠ currentUser) && ! m.is_read)).length
      = chat.messages.countP
          (fun m => decide (m.sender ≠ currentUser ∧ m.is_read = false))
    rw [List.countP_eq_length_filter]
    congr 1
    apply List.filter_congr
    intro m _
    by_cases h1 : m.sender = currentUser <;> by_cases h2 : m.is_read <;>
      simp [h1, h2]
  · exact mem_mergeChats

/-- Claim C7 witness: the changed summary found in a concrete merge output
is an element of the fresh batch. -/
theorem unreadCount_correct_witness :
    metaA2 ∈ ([metaA] : List ChatWithMetadata) ∨
    metaA2 ∈ ([metaA2] : List ChatWithMetadata) :=
  unreadCount_correct.2 [metaA] [metaA2] metaA2 (by decide)

/-- Claim C8: applying either merge a second time with fetched data
identical to the first application reproduces the state of the first
application exactly (given pairwise distinct ids in the fresh chat batch,
as the ledger guarantees one creation event per chat). -/
theorem merge_idempotent (prev fresh : List ChatWithMetadata)
    (held fetched : List Message)
    (hnd : (fresh.map (·.id)).Nodup) :
    mergeChats (mergeChats prev fresh) fresh = mergeChats prev fresh ∧
    pollMerge (pollMerge held fetched) fetched = pollMerge held fetched :=
  ⟨mergeChats_idem prev fresh hnd, pollMerge_idem held fetched⟩

/-- Claim C8 witness: idempotence at a concrete held/fresh pair. -/
theorem merge_idempotent_witness :
    mergeChats (mergeChats [metaA] [metaA2]) [metaA2] = mergeChats [metaA] [metaA2] ∧
    pollMerge (pollMerge [mkMsg "a" 1] [mkMsg "a" 2]) [mkMsg "a" 2]
      = pollMerge [mkMsg "a" 1] [mkMsg "a" 2] :=
  merge_idempotent [metaA] [metaA2] [mkMsg "a" 1] [mkMsg "a" 2] (by decide)

/-- An empty hook state used for concrete runs. -/
def st0 : MessagingState := { chats := [], messages := [], chatError := none }

/-- Claim C9 counterexample: a failed `markAsRead` submission leaves the
error state empty, while the same failure in `sendMessage` surfaces it. -/
theorem markAsRead_failure_not_surfaced :
    (markAsReadOp (.error "rejected") st0).chatError = none ∧
    (sendMessageOp "alice" "hi" 5 (.error "rejected") st0).chatError
      = some "rejected" := by
  constructor
  · rfl
  · rfl

/-- Claim C9 (amended): a `sendMessage` submission failure is surfaced
through the user-visible error state, but a `markAsRead` submission failure
is only logged and returned as null, leaving the whole hook state
untouched. -/
theorem submission_error_surfacing (e : String) (st : MessagingState) :
    (∀ (currentAddress message : String) (now : Int),
      (sendMessageOp currentAddress message now (.error e) st).chatError = some e) ∧
    markAsReadOp (.error e) st = st :=
  ⟨fun _ _ _ => rfl, rfl⟩

/-- Claim C10: every summary present after a refresh either was already held
or carries the id of one of the first 50 `ChatCreated` events — a chat
whose creation event falls outside the 50-event query window is never added
by that cycle. -/
theorem fetchChats_limit50 (currentUser : String) (allEvents : List String)
    (ledger : String → Option Chat) (st : MessagingState) (c : ChatWithMetadata)
    (hc : c ∈ (fetchChatsOp currentUser
      (.ok (queryChatCreated allEvents, ledger)) st).chats) :
    c.id ∈ allEvents.take 50 ∨ c ∈ st.chats := by
  have hc2 : c ∈ fetchChatsCore currentUser (allEvents.take 50) ledger st.chats := hc
  unfold fetchChatsCore at hc2
  by_cases he : (allEvents.take 50).isEmpty = true
  · rw [if_pos he] at hc2
    cases hc2
  · rw [if_neg he] at hc2
    rcases mem_mergeChats _ _ _ hc2 with h | h
    · exact Or.inr h
    · exact Or.inl (mem_fetchedSummaries_id _ _ _ _ h)

/-- A one-chat ledger resolving only the id `cA`. -/
def ledgerA : String → Option Chat :=
  fun cid => if cid = "cA" then some chatAB else none

/-- Claim C10 witness: the summary added from a one-event query carries the
id of that event. -/
theorem fetchChats_limit50_witness :
    metaA.id ∈ (["cA"] : List String).take 50 ∨ metaA ∈ st0.chats :=
  fetchChats_limit50 "alice" ["cA"] ledgerA st0 metaA (by decide)

end Rowl
